import Mathlib

/-!
Verification development for the aura repository.

Shallow embedding of the core computation of the repository:
the JSON blob extractor, the NetworkX-style relationship graph built by
utils.parse_graph_data, the pairwise graph diff utils.compare_graphs, the
canonical graph of vertex_end_to_end.to_canonical_graph, and the PlantUML
renderers generate_plantuml and generate_plantuml_diff.

Machine strings are modelled as Lean String (a wrapper around List Char in
this toolchain); Python dicts keyed by ids or edge keys are modelled as
association lists with the same insertion and overwrite behaviour.
-/

set_option maxHeartbeats 1000000
set_option maxRecDepth 8000

namespace Aura

/-! Python style whitespace helpers, used by str.strip and the regex models. -/

def isPyWs (c : Char) : Bool :=
  c = ' ' || c = '\t' || c = '\n' || c = '\r' || c = '\x0b' || c = '\x0c'

def lstripL (cs : List Char) : List Char := cs.dropWhile isPyWs

def rstripL (cs : List Char) : List Char := (cs.reverse.dropWhile isPyWs).reverse

def pyStripL (cs : List Char) : List Char := lstripL (rstripL cs)

def pyStrip (s : String) : String := String.mk (pyStripL s.data)

/-!
vertex_end_to_end.sanitize_id: keep alphanumerics, underscore and hyphen,
replace every other character with an underscore.  Char.isAlphanum stands in
for the Python isalnum test; the idempotence argument below does not depend
on the exact extension of the alphanumeric predicate, only on the fact that
the underscore itself is kept.
-/

def sanitizeChar (ch : Char) : Char :=
  if ch.isAlphanum || ch = '_' || ch = '-' then ch else '_'

def sanitize_id (raw : String) : String := String.mk (raw.data.map sanitizeChar)

structure NodeAttrs where
  label : String
  group : String
deriving DecidableEq

structure EdgeAttrs where
  label : String
  title : String
deriving DecidableEq

structure DiGraph where
  nodes : List (String × Option NodeAttrs)
  edges : List ((String × String) × EdgeAttrs)
deriving DecidableEq

def nodeIds (G : DiGraph) : List String := G.nodes.map Prod.fst

def hasNode (G : DiGraph) (i : String) : Bool := decide (i ∈ nodeIds G)

def edgeKeys (G : DiGraph) : List (String × String) := G.edges.map Prod.fst

def edgeFind (G : DiGraph) (u v : String) : Option ((String × String) × EdgeAttrs) :=
  G.edges.find? (fun e => decide (e.1 = (u, v)))

def edgeLookup (G : DiGraph) (u v : String) : Option EdgeAttrs :=
  (edgeFind G u v).map Prod.snd

def hasEdge (G : DiGraph) (u v : String) : Bool := (edgeFind G u v).isSome

def addNode (G : DiGraph) (i : String) (a : NodeAttrs) : DiGraph :=
  if hasNode G i then
    { G with nodes := G.nodes.map (fun p => if p.1 = i then (i, some a) else p) }
  else
    { G with nodes := G.nodes ++ [(i, some a)] }

def ensureNode (G : DiGraph) (i : String) : DiGraph :=
  if hasNode G i then G else { G with nodes := G.nodes ++ [(i, none)] }

/-- Dict style update: replace the attributes of the first (and, by the
construction invariant, only) entry with the given key, keeping its
position; append a fresh entry otherwise. -/
def updateEdges :
    List ((String × String) × EdgeAttrs) → (String × String) → EdgeAttrs →
      List ((String × String) × EdgeAttrs)
  | [], k, a => [(k, a)]
  | e :: es, k, a => if e.1 = k then (k, a) :: es else e :: updateEdges es k a

def addEdge (G : DiGraph) (u v : String) (a : EdgeAttrs) : DiGraph :=
  let G1 := ensureNode (ensureNode G u) v
  { G1 with edges := updateEdges G1.edges (u, v) a }

/-!
Payload model: the entity relationship JSON consumed by parse_graph_data.
Each relationship field models rel.get with default empty string, so an
absent qualifier key and an empty qualifier are identified, exactly as in
the source where both render as the empty string.
-/

structure Entity where
  id : String
  name : String
  type : String
deriving DecidableEq

structure Rel where
  subject_id : String
  object_id : String
  verb : String
  optionality : String
  condition : String
  property : String
  thresholds : String
  frequency : String
deriving DecidableEq

structure Payload where
  entities : List Entity
  relationships : List Rel
deriving DecidableEq

/-- Composed tooltip annotation attached to every edge by parse_graph_data. -/
def tooltipText (r : Rel) : String :=
  String.intercalate "\n"
    ["Verb: " ++ r.verb,
     "Optionality: " ++ r.optionality,
     "Condition: " ++ r.condition,
     "Property: " ++ r.property,
     "Thresholds: " ++ r.thresholds,
     "Frequency: " ++ r.frequency]

def relEdgeAttrs (r : Rel) : EdgeAttrs := { label := r.verb, title := tooltipText r }

/-- utils.parse_graph_data: add one node per entity, then one directed edge
per relationship, each edge carrying label = verb and the composed tooltip. -/
def parse_graph_data (p : Payload) : DiGraph :=
  let G0 : DiGraph := { nodes := [], edges := [] }
  let G1 := p.entities.foldl (fun g e => addNode g e.id { label := e.name, group := e.type }) G0
  p.relationships.foldl (fun g r => addEdge g r.subject_id r.object_id (relEdgeAttrs r)) G1

/-- Predicate deciding whether an edge of the new graph is reported as
changed by utils.compare_graphs. -/
def changedPred (G_old G_new : DiGraph) (uv : String × String) : Bool :=
  match edgeLookup G_old uv.1 uv.2 with
  | some od =>
    match edgeLookup G_new uv.1 uv.2 with
    | some nd => od.label != nd.label || od.title != nd.title
    | none => false
  | none => true

/-- utils.compare_graphs.  The node differences are computed in Python as
lists built from set differences; only their membership is specified, and
the model realises them as filters over the node id lists. -/
def compare_graphs (G_old G_new : DiGraph) :
    List (String × String) × List String × List String :=
  let changed_edges := (edgeKeys G_new).filter (changedPred G_old G_new)
  let added_nodes := (nodeIds G_new).filter (fun i => !(hasNode G_old i))
  let removed_nodes := (nodeIds G_old).filter (fun i => !(hasNode G_new i))
  (changed_edges, added_nodes, removed_nodes)

/-! Support lemmas for the graph diff claims. -/

def relPred (u v : String) (r : Rel) : Bool := decide (r.subject_id = u ∧ r.object_id = v)

structure CNode where
  id : String
  label : String
  type : String
deriving DecidableEq

structure CEdge where
  source : String
  target : String
  relation : String
  condition : String
  optionality : String
  frequency : String
deriving DecidableEq

structure CGraph where
  nodes : List CNode
  edges : List CEdge
deriving DecidableEq

/-- Derivation of a canonical edge record from a relationship entry, as in
to_canonical_graph. -/
def relCEdge (r : Rel) : CEdge :=
  { source := r.subject_id, target := r.object_id, relation := r.verb,
    condition := r.condition, optionality := r.optionality, frequency := r.frequency }

def entityCNode (e : Entity) : CNode := { id := e.id, label := e.name, type := e.type }

def to_canonical_graph (p : Payload) : CGraph :=
  { nodes := p.entities.map entityCNode, edges := p.relationships.map relCEdge }

abbrev EdgeKey := String × String × String × String × String × String

/-- edge_key of generate_plantuml_diff: the full six-field tuple. -/
def edge_key (e : CEdge) : EdgeKey :=
  (e.source, e.target, e.relation, e.condition, e.optionality, e.frequency)

/-- Keys of the Python dict comprehension keyed by edge_key, in first
insertion order. -/
def dictKeys (es : List CEdge) : List EdgeKey :=
  es.foldl (fun acc e => if edge_key e ∈ acc then acc else acc ++ [edge_key e]) []

/-- Value stored in the Python dict for a key: the last edge with that key. -/
def dictLookup (es : List CEdge) (k : EdgeKey) : Option CEdge :=
  es.reverse.find? (fun e => decide (edge_key e = k))

/-- Key set of the common class: keys present in both dicts.  The Python
sets produced by the keys-view operations have unspecified iteration order;
the lists here fix one enumeration of each set, and the rendering theorems
quantify over arbitrary enumerations. -/
def commonKeys (og ng : CGraph) : List EdgeKey :=
  (dictKeys og.edges).filter (fun k => decide (k ∈ dictKeys ng.edges))

def addedKeys (og ng : CGraph) : List EdgeKey :=
  (dictKeys ng.edges).filter (fun k => !(decide (k ∈ dictKeys og.edges)))

def removedKeys (og ng : CGraph) : List EdgeKey :=
  (dictKeys og.edges).filter (fun k => !(decide (k ∈ dictKeys ng.edges)))

def node_line (n : CNode) : String :=
  let node_id := sanitize_id n.id
  let ntype := (if n.type = "" then "process" else n.type).toLower
  if ntype ∈ ["actor", "party", "role", "person"] then
    "actor \"" ++ n.label ++ "\" as " ++ node_id
  else if ntype ∈ ["system", "application", "repo", "trade_repository"] then
    "node \"" ++ n.label ++ "\" as " ++ node_id
  else
    "component \"" ++ n.label ++ "\" as " ++ node_id

/-- Label parts in source order: prefix, relation, then parenthesised
condition, bracketed optionality and braced frequency when non-empty. -/
def labelPartsL (pre : String) (e : CEdge) : List (List Char) :=
  pre.data :: e.relation.data ::
    ((if e.condition = "" then [] else [('(' :: e.condition.data) ++ [')']]) ++
     (if e.optionality = "" then [] else [('[' :: e.optionality.data) ++ [']']]) ++
     (if e.frequency = "" then [] else [('\x7b' :: e.frequency.data) ++ ['\x7d']]))

/-- Space join of the truthy parts, as str.join over the filtered list. -/
def joinSpace : List (List Char) → List Char
  | [] => []
  | p :: rest => rest.foldl (fun acc x => acc ++ ' ' :: x) p

def labelText (pre : String) (e : CEdge) : String :=
  String.mk (pyStripL (joinSpace ((labelPartsL pre e).filter (fun p => !p.isEmpty))))

def arrowFor (color : Option String) (dashed : Bool) : String :=
  let arrow := if dashed then "..>" else "-->"
  match color with
  | some c => "-[" ++ c ++ "]" ++ (arrow.drop 1)
  | none => arrow

def edge_line (e : CEdge) (color : Option String) (dashed : Bool) (pre : String) : String :=
  let src := sanitize_id e.source
  let dst := sanitize_id e.target
  let label := labelText pre e
  let arrow := arrowFor color dashed
  if label = "" then src ++ " " ++ arrow ++ " " ++ dst
  else src ++ " " ++ arrow ++ " " ++ dst ++ " : " ++ label

def optLine (pre : String) (o : Option String) : List String :=
  match o with
  | some t => [pre ++ t]
  | none => []

def plantumlLines (graph : CGraph) (title scale : Option String) : List String :=
  ["@startuml"]
  ++ optLine "title " title
  ++ optLine "scale " scale
  ++ ["skinparam backgroundColor #FFFFFF", "skinparam componentStyle rectangle",
      "skinparam ArrowColor #555555", "skinparam ArrowThickness 1"]
  ++ graph.nodes.map node_line
  ++ [""]
  ++ graph.edges.map (fun e => edge_line e none false "")
  ++ ["@enduml"]

def generate_plantuml (graph : CGraph) (title scale : Option String) : String :=
  String.intercalate "\n" (plantumlLines graph title scale)

/-- nodes_by_id.setdefault: keep the record already present for an id. -/
def setdefaultNode (acc : List CNode) (n : CNode) : List CNode :=
  if (acc.find? (fun m => decide (m.id = n.id))).isSome then acc else acc ++ [n]

/-- Insertion-ordered dict of node records, old graph first. -/
def nodesById (og ng : CGraph) : List CNode :=
  (og.nodes ++ ng.nodes).foldl setdefaultNode []

def defaultCEdge : CEdge :=
  { source := "", target := "", relation := "", condition := "", optionality := "", frequency := "" }

/-- Dict indexing old_edges[k] / new_edges[k]; total with a junk default, but
every key passed by the renderer is drawn from the corresponding dict, so
the lookup always succeeds on reachable inputs. -/
def dGet (es : List CEdge) (k : EdgeKey) : CEdge := (dictLookup es k).getD defaultCEdge

def diffLines (og ng : CGraph) (title scale : Option String)
    (ck ak rk : List EdgeKey) : List String :=
  ["@startuml"]
  ++ optLine "title " title
  ++ optLine "scale " scale
  ++ ["skinparam backgroundColor #FFFFFF", "skinparam componentStyle rectangle",
      "legend right", "  <color:#555555>Common</color>", "  <color:#008800>New</color>",
      "  <color:#BB0000>Removed</color>", "endlegend"]
  ++ (nodesById og ng).map node_line
  ++ [""]
  ++ ck.map (fun k => edge_line (dGet ng.edges k) none false "")
  ++ ak.map (fun k => edge_line (dGet ng.edges k) (some "#008800") false "")
  ++ rk.map (fun k => edge_line (dGet og.edges k) (some "#BB0000") true "REMOVED: ")
  ++ ["@enduml"]

def generate_plantuml_diff (og ng : CGraph) (title scale : Option String)
    (ck ak rk : List EdgeKey) : String :=
  String.intercalate "\n" (diffLines og ng title scale ck ak rk)

/-- A list enumerates a key set when it lists exactly its members, each
once; this is what iterating a Python set yields, in some unspecified
order. -/
def enumerates (l s : List EdgeKey) : Prop :=
  l.Nodup ∧ (∀ k ∈ l, k ∈ s) ∧ (∀ k ∈ s, k ∈ l)

instance (l s : List EdgeKey) : Decidable (enumerates l s) :=
  have d1 : Decidable l.Nodup := List.nodupDecidable l
  have d2 : Decidable (∀ k ∈ l, k ∈ s) := List.decidableBAll _ l
  have d3 : Decidable (∀ k ∈ s, k ∈ l) := List.decidableBAll _ s
  @instDecidableAnd _ _ d1 (@instDecidableAnd _ _ d2 d3)

def ogR : CGraph :=
  { nodes := [], edges :=
      [{ source := "A", target := "B", relation := "r1",
         condition := "", optionality := "", frequency := "" },
       { source := "A", target := "C", relation := "r2",
         condition := "", optionality := "", frequency := "" }] }

def ngR : CGraph := { nodes := [], edges := [] }

def k1R : EdgeKey := ("A", "B", "r1", "", "", "")

def k2R : EdgeKey := ("A", "C", "r2", "", "", "")

/-- Closed instance of the C7 theorem at a concrete removed key, with both
hypotheses discharged by computation. -/
def ogN : CGraph :=
  { nodes := [{ id := "E1", label := "Old label", type := "actor" }], edges := [] }

def ngN : CGraph :=
  { nodes := [{ id := "E1", label := "New label", type := "system" }], edges := [] }

/-- Closed instance of the C10 theorem: with distinct old and new records
for the shared id, the rendered declaration uses the old record. -/
inductive Json where
  | null : Json
  | bool : Bool → Json
  | num : String → Json
  | str : String → Json
  | arr : List Json → Json
  | obj : List (String × Json) → Json

def Json.isObj : Json → Bool
  | .obj _ => true
  | _ => false

def isJsonWs (c : Char) : Bool := c = ' ' || c = '\t' || c = '\n' || c = '\r'

def hexVal (c : Char) : Option Nat :=
  if '0' ≤ c ∧ c ≤ '9' then some (c.toNat - '0'.toNat)
  else if 'a' ≤ c ∧ c ≤ 'f' then some (c.toNat - 'a'.toNat + 10)
  else if 'A' ≤ c ∧ c ≤ 'F' then some (c.toNat - 'A'.toNat + 10)
  else none

/-- Body of a JSON string after its opening quote: returns the decoded
content and the remainder after the closing quote.  Unescaped control
characters are rejected, as in strict mode. -/
def parseStringBody : List Char → Option (List Char × List Char)
  | [] => none
  | '"' :: rest => some ([], rest)
  | '\\' :: '"' :: r => (parseStringBody r).map (fun p => ('"' :: p.1, p.2))
  | '\\' :: '\\' :: r => (parseStringBody r).map (fun p => ('\\' :: p.1, p.2))
  | '\\' :: '/' :: r => (parseStringBody r).map (fun p => ('/' :: p.1, p.2))
  | '\\' :: 'b' :: r => (parseStringBody r).map (fun p => ('\x08' :: p.1, p.2))
  | '\\' :: 'f' :: r => (parseStringBody r).map (fun p => ('\x0c' :: p.1, p.2))
  | '\\' :: 'n' :: r => (parseStringBody r).map (fun p => ('\n' :: p.1, p.2))
  | '\\' :: 'r' :: r => (parseStringBody r).map (fun p => ('\r' :: p.1, p.2))
  | '\\' :: 't' :: r => (parseStringBody r).map (fun p => ('\t' :: p.1, p.2))
  | '\\' :: 'u' :: h1 :: h2 :: h3 :: h4 :: r =>
    match hexVal h1, hexVal h2, hexVal h3, hexVal h4 with
    | some a, some b, some c, some d =>
      (parseStringBody r).map
        (fun p => (Char.ofNat (((a * 16 + b) * 16 + c) * 16 + d) :: p.1, p.2))
    | _, _, _, _ => none
  | '\\' :: _ => none
  | c :: r => if c.toNat < 32 then none else (parseStringBody r).map (fun p => (c :: p.1, p.2))

/-- Integer part of the JSON number grammar: a single zero, or a nonzero
digit followed by digits. -/
def parseIntPart : List Char → Option (List Char × List Char)
  | '0' :: r => some (['0'], r)
  | c :: r =>
    if c.isDigit then some (c :: r.takeWhile Char.isDigit, r.dropWhile Char.isDigit)
    else none
  | [] => none

/-- Optional fractional part: a dot followed by at least one digit. -/
def parseFrac : List Char → List Char × List Char
  | '.' :: r =>
    match r.takeWhile Char.isDigit with
    | [] => ([], '.' :: r)
    | ds => ('.' :: ds, r.dropWhile Char.isDigit)
  | cs => ([], cs)

/-- Optional exponent part: e or E, an optional sign, at least one digit. -/
def parseExp : List Char → List Char × List Char
  | e :: r =>
    if e = 'e' || e = 'E' then
      match r with
      | s :: r2 =>
        if s = '+' || s = '-' then
          match r2.takeWhile Char.isDigit with
          | [] => ([], e :: r)
          | ds => (e :: s :: ds, r2.dropWhile Char.isDigit)
        else
          match r.takeWhile Char.isDigit with
          | [] => ([], e :: r)
          | ds => (e :: ds, r.dropWhile Char.isDigit)
      | [] => ([], [e])
    else ([], e :: r)
  | [] => ([], [])

def parseNumber (cs : List Char) : Option (List Char × List Char) :=
  let sc : List Char × List Char :=
    match cs with
    | '-' :: r => (['-'], r)
    | _ => ([], cs)
  match parseIntPart sc.2 with
  | none => none
  | some (ip, cs2) =>
    let fc := parseFrac cs2
    let ec := parseExp fc.2
    some (sc.1 ++ ip ++ fc.1 ++ ec.1, ec.2)

/-- Dict insertion: overwrite the value at the first occurrence of the key,
append otherwise. -/
def insertKey : List (String × Json) → String → Json → List (String × Json)
  | [], k, v => [(k, v)]
  | (k0, v0) :: rest, k, v =>
    if k0 = k then (k, v) :: rest else (k0, v0) :: insertKey rest k v

mutual

/-- One JSON value starting at the head of the input (whitespace already
consumed), returning the value and the remainder.  The fuel only bounds the
recursion; two consecutive fuel steps always consume at least one input
character, so the budget passed by jsonLoadsL is never exhausted first. -/
def parseValue : Nat → List Char → Option (Json × List Char)
  | 0, _ => none
  | f + 1, cs =>
    match cs with
    | '\x7b' :: r0 =>
      match r0.dropWhile isJsonWs with
      | '\x7d' :: r2 => some (.obj [], r2)
      | r => parseMembers f r []
    | '[' :: r0 =>
      match r0.dropWhile isJsonWs with
      | ']' :: r2 => some (.arr [], r2)
      | r => parseItems f r []
    | '"' :: r0 => (parseStringBody r0).map (fun p => (.str (String.mk p.1), p.2))
    | 't' :: 'r' :: 'u' :: 'e' :: r0 => some (.bool true, r0)
    | 'f' :: 'a' :: 'l' :: 's' :: 'e' :: r0 => some (.bool false, r0)
    | 'n' :: 'u' :: 'l' :: 'l' :: r0 => some (.null, r0)
    | _ =>
      match parseNumber cs with
      | some (lex, r0) => some (.num (String.mk lex), r0)
      | none =>
        match cs with
        | 'N' :: 'a' :: 'N' :: r0 => some (.num "NaN", r0)
        | 'I' :: 'n' :: 'f' :: 'i' :: 'n' :: 'i' :: 't' :: 'y' :: r0 =>
          some (.num "Infinity", r0)
        | '-' :: 'I' :: 'n' :: 'f' :: 'i' :: 'n' :: 'i' :: 't' :: 'y' :: r0 =>
          some (.num "-Infinity", r0)
        | _ => none

/-- Members of an object, positioned at a key quote. -/
def parseMembers : Nat → List Char → List (String × Json) → Option (Json × List Char)
  | 0, _, _ => none
  | f + 1, cs, acc =>
    match cs with
    | '"' :: r0 =>
      match parseStringBody r0 with
      | some (key, r1) =>
        match r1.dropWhile isJsonWs with
        | ':' :: r2 =>
          match parseValue f (r2.dropWhile isJsonWs) with
          | some (v, r3) =>
            match r3.dropWhile isJsonWs with
            | ',' :: r4 => parseMembers f (r4.dropWhile isJsonWs) (insertKey acc (String.mk key) v)
            | '\x7d' :: r4 => some (.obj (insertKey acc (String.mk key) v), r4)
            | _ => none
          | none => none
        | _ => none
      | none => none
    | _ => none

/-- Items of an array, positioned at a value start. -/
def parseItems : Nat → List Char → List Json → Option (Json × List Char)
  | 0, _, _ => none
  | f + 1, cs, acc =>
    match parseValue f cs with
    | some (v, r0) =>
      match r0.dropWhile isJsonWs with
      | ',' :: r1 => parseItems f (r1.dropWhile isJsonWs) (acc ++ [v])
      | ']' :: r1 => some (.arr (acc ++ [v]), r1)
      | _ => none
    | none => none

end

/-- json.loads: skip surrounding whitespace, parse one value, require the
input to be exhausted. -/
def jsonLoadsL (cs : List Char) : Option Json :=
  match parseValue (2 * cs.length + 4) (cs.dropWhile isJsonWs) with
  | some (v, rest) => if rest.dropWhile isJsonWs = [] then some v else none
  | none => none

/-!
Model of the extraction helper.  The two regular expressions over the raw
text are modelled operationally: a fence match is three backticks, an
optional json tag, optional whitespace, then a brace-delimited group whose
closing brace is the last (greedy search) or first (non-greedy findall)
closing brace followed by optional whitespace and three closing backticks.
The brace scanner is the depth-counting loop of the source, which ignores
string literals; search always resumes after the previously matched span.
-/

def backtick : Char := '\x60'

def hasFence : List Char → Bool
  | [] => false
  | c :: rest =>
    decide ((c :: rest).take 3 = [backtick, backtick, backtick]) || hasFence rest

def wsThenTicks (t : List Char) : Bool :=
  decide ((t.dropWhile isPyWs).take 3 = [backtick, backtick, backtick])

def closeOk (s3 : List Char) (j : Nat) : Bool :=
  decide (1 ≤ j) && decide (s3.get? j = some '\x7d') && wsThenTicks (s3.drop (j + 1))

def findFenceClose (s3 : List Char) (greedy : Bool) : Option Nat :=
  let js := (List.range s3.length).filter (closeOk s3)
  if greedy then js.getLast? else js.head?

def fenceAfterTicks (s1 : List Char) (greedy : Bool) : Option (List Char × List Char) :=
  let s2 := if s1.take 4 = ['j', 's', 'o', 'n'] then s1.drop 4 else s1
  let s3 := s2.dropWhile isPyWs
  match s3 with
  | '\x7b' :: _ =>
    match findFenceClose s3 greedy with
    | some j =>
      some (s3.take (j + 1), ((s3.drop (j + 1)).dropWhile isPyWs).drop 3)
    | none => none
  | _ => none

def fenceMatchAt (cs : List Char) (greedy : Bool) : Option (List Char × List Char) :=
  if cs.take 3 = [backtick, backtick, backtick] then fenceAfterTicks (cs.drop 3) greedy
  else none

/-- re.search of the greedy fenced-block pattern: the captured group at the
leftmost matching position. -/
def fenceSearchGreedy : List Char → Option (List Char)
  | [] => none
  | c :: rest =>
    match fenceMatchAt (c :: rest) true with
    | some p => some p.1
    | none => fenceSearchGreedy rest

/-- re.findall of the non-greedy fenced-block pattern: all captured groups,
resuming after each full match. -/
def fenceFindall : Nat → List Char → List (List Char)
  | 0, _ => []
  | _ + 1, [] => []
  | f + 1, c :: rest =>
    match fenceMatchAt (c :: rest) false with
    | some (g, after) => g :: fenceFindall f after
    | none => fenceFindall f rest

/-- The depth loop of the brace scanner: number of characters up to and
including the position where the running depth first returns to zero. -/
def scanDepth : Int → List Char → Option Nat
  | _, [] => none
  | d, c :: rest =>
    let d2 := if c = '\x7b' then d + 1 else if c = '\x7d' then d - 1 else d
    if d2 = 0 then some 1 else (scanDepth d2 rest).map (fun n => n + 1)

/-- The balanced-brace candidate scan: find the next opening brace, match
it by depth counting, emit the span, resume after it; stop entirely at an
unmatched opening brace. -/
def braceSpansAux : Nat → List Char → List (List Char)
  | 0, _ => []
  | f + 1, cs =>
    match cs.dropWhile (fun c => !(decide (c = '\x7b'))) with
    | [] => []
    | s =>
      match scanDepth 0 s with
      | some n => s.take n :: braceSpansAux f (s.drop n)
      | none => []

def braceSpans (cs : List Char) : List (List Char) := braceSpansAux (cs.length + 1) cs

/-- Candidate list of the scanning phase: non-greedy fenced groups first,
then balanced-brace spans, over the current working text. -/
def candidatesOf (text : List Char) : List (List Char) :=
  fenceFindall (text.length + 1) text ++ braceSpans text

def firstParse : List (List Char) → Option Json
  | [] => none
  | c :: rest =>
    match jsonLoadsL c with
    | some v => some v
    | none => firstParse rest

def scanPhase (work : List Char) : Except String Json :=
  match firstParse (candidatesOf work) with
  | some v => Except.ok v
  | none => Except.error "No valid JSON object found in LLM response"

/-- vertex_end_to_end._extract_json_blob: direct parse of the stripped
text, then the greedy fence search (rebinding the working text to the
fenced group when its parse fails), then the candidate scan. -/
def extract_json_blob (raw : String) : Except String Json :=
  match jsonLoadsL (pyStripL raw.data) with
  | some v => Except.ok v
  | none =>
    match fenceSearchGreedy (pyStripL raw.data) with
    | some g =>
      match jsonLoadsL g with
      | some v => Except.ok v
      | none => scanPhase g
    | none => scanPhase (pyStripL raw.data)

/-- Every candidate the extractor can ever try, in order: the stripped
text, the greedy fenced group when one matches, then the scanning-phase
candidates over the working text. -/
def allCandidates (raw : String) : List (List Char) :=
  match fenceSearchGreedy (pyStripL raw.data) with
  | some g => pyStripL raw.data :: g :: candidatesOf g
  | none => pyStripL raw.data :: candidatesOf (pyStripL raw.data)

/-! Support lemmas for the extractor claims. -/

lemma sanitizeChar_idem (c : Char) : sanitizeChar (sanitizeChar c) = sanitizeChar c := by
  unfold sanitizeChar
  by_cases h : (c.isAlphanum || c = '_' || c = '-') = true
  · simp [h]
  · simp [h]

/-- C9: sanitize_id is idempotent: applying the per-character sanitization a
second time changes nothing, because every character produced by the first
pass (a kept alphanumeric, underscore or hyphen, or the replacement
underscore) is itself kept by the mapping. -/
theorem sanitize_id_idempotent (x : String) :
    sanitize_id (sanitize_id x) = sanitize_id x := by
  unfold sanitize_id
  apply congrArg String.mk
  rw [show (String.mk (x.data.map sanitizeChar)).data = x.data.map sanitizeChar from rfl]
  rw [List.map_map]
  exact List.map_congr_left (fun a _ => sanitizeChar_idem a)

/-!
Graph model for utils.parse_graph_data and utils.compare_graphs.

A networkx DiGraph is modelled as an insertion-ordered association list of
nodes (id to optional vis attributes) and of edges (ordered id pair to edge
attributes).  add_node and add_edge overwrite the attributes of an existing
key in place, exactly like the underlying dict representation; add_edge also
inserts missing endpoint nodes with an empty attribute dict.
-/

lemma hasNode_iff (G : DiGraph) (i : String) : hasNode G i = true ↔ i ∈ nodeIds G := by
  simp [hasNode]

lemma hasEdge_iff_mem (G : DiGraph) (u v : String) :
    hasEdge G u v = true ↔ (u, v) ∈ edgeKeys G := by
  unfold hasEdge edgeFind edgeKeys
  rw [List.find?_isSome]
  constructor
  · rintro ⟨e, he, hp⟩
    have : e.1 = (u, v) := by simpa using hp
    exact this ▸ List.mem_map_of_mem Prod.fst he
  · intro h
    rcases List.mem_map.mp h with ⟨e, he, hfst⟩
    exact ⟨e, he, by simp [hfst]⟩

lemma hasEdge_eq_false_iff (G : DiGraph) (u v : String) :
    hasEdge G u v = false ↔ edgeLookup G u v = none := by
  unfold hasEdge edgeLookup
  cases h : edgeFind G u v <;> simp [h]

lemma changedPred_iff (G_old G_new : DiGraph) (u v : String)
    (hne : hasEdge G_new u v = true) :
    changedPred G_old G_new (u, v) = true ↔
      (hasEdge G_old u v = false ∨
        ∃ od nd, edgeLookup G_old u v = some od ∧ edgeLookup G_new u v = some nd ∧
          (od.label ≠ nd.label ∨ od.title ≠ nd.title)) := by
  have hred : changedPred G_old G_new (u, v) =
      (match edgeLookup G_old u v with
       | some od =>
         match edgeLookup G_new u v with
         | some nd => od.label != nd.label || od.title != nd.title
         | none => false
       | none => true) := rfl
  rw [hred]
  cases hol : edgeLookup G_old u v with
  | none =>
    constructor
    · intro _
      exact Or.inl ((hasEdge_eq_false_iff G_old u v).mpr hol)
    · intro _
      trivial
  | some od =>
    cases hnl : edgeLookup G_new u v with
    | none =>
      exfalso
      unfold hasEdge at hne
      unfold edgeLookup at hnl
      cases h : edgeFind G_new u v with
      | none => rw [h] at hne; simp at hne
      | some e => rw [h] at hnl; simp at hnl
    | some nd =>
      constructor
      · intro h
        refine Or.inr ⟨od, nd, rfl, rfl, ?_⟩
        simpa [Bool.or_eq_true, bne_iff_ne] using h
      · rintro (hfalse | ⟨od', nd', hol', hnl', hdiff⟩)
        · rw [hasEdge_eq_false_iff, hol] at hfalse
          cases hfalse
        · have h1 : od = od' := by injection hol'
          have h2 : nd = nd' := by injection hnl'
          subst h1
          subst h2
          simpa [Bool.or_eq_true, bne_iff_ne] using hdiff

/-- C1: compare_graphs reports as changed exactly the ordered pairs that are
edges of the new graph and either do not occur as an edge of the old graph
or occur with a different label or composed tooltip annotation under exact
string equality; added nodes are exactly the ids of the new graph missing
from the old one, removed nodes the converse; a pair that is an edge of the
old graph only is never reported in changed_edges. -/
theorem compare_graphs_characterization (G_old G_new : DiGraph) (u v x : String) :
    ((u, v) ∈ (compare_graphs G_old G_new).1 ↔
      (hasEdge G_new u v = true ∧
        (hasEdge G_old u v = false ∨
          ∃ od nd, edgeLookup G_old u v = some od ∧ edgeLookup G_new u v = some nd ∧
            (od.label ≠ nd.label ∨ od.title ≠ nd.title)))) ∧
    (x ∈ (compare_graphs G_old G_new).2.1 ↔ (x ∈ nodeIds G_new ∧ x ∉ nodeIds G_old)) ∧
    (x ∈ (compare_graphs G_old G_new).2.2 ↔ (x ∈ nodeIds G_old ∧ x ∉ nodeIds G_new)) ∧
    (hasEdge G_old u v = true → hasEdge G_new u v = false →
      (u, v) ∉ (compare_graphs G_old G_new).1) := by
  refine ⟨?_, ?_, ?_, ?_⟩
  · simp only [compare_graphs, List.mem_filter]
    constructor
    · rintro ⟨hmem, hpred⟩
      have hne := (hasEdge_iff_mem G_new u v).mpr hmem
      exact ⟨hne, (changedPred_iff G_old G_new u v hne).mp hpred⟩
    · rintro ⟨hne, hrest⟩
      exact ⟨(hasEdge_iff_mem G_new u v).mp hne, (changedPred_iff G_old G_new u v hne).mpr hrest⟩
  · simp [compare_graphs, List.mem_filter, hasNode]
  · simp [compare_graphs, List.mem_filter, hasNode]
  · intro h1 h2 hmem
    simp only [compare_graphs, List.mem_filter] at hmem
    have := (hasEdge_iff_mem G_new u v).mpr hmem.1
    rw [h2] at this
    cases this

/-- Closed instance of the C1 theorem: on a concrete pair of graphs the
asymmetry clause applies with its hypotheses discharged by computation. -/
theorem compare_graphs_characterization_witness :
    hasEdge (DiGraph.mk [("a", none), ("b", none)] [(("a", "b"), EdgeAttrs.mk "r" "t")]) "a" "b" = true ∧
    hasEdge (DiGraph.mk [("a", none)] []) "a" "b" = false ∧
    ("a", "b") ∉ (compare_graphs
      (DiGraph.mk [("a", none), ("b", none)] [(("a", "b"), EdgeAttrs.mk "r" "t")])
      (DiGraph.mk [("a", none)] [])).1 :=
  ⟨by decide, by decide,
    (compare_graphs_characterization
      (DiGraph.mk [("a", none), ("b", none)] [(("a", "b"), EdgeAttrs.mk "r" "t")])
      (DiGraph.mk [("a", none)] []) "a" "b" "a").2.2.2 (by decide) (by decide)⟩

/-! Support lemmas for the last-write-wins claim about parse_graph_data. -/

lemma edges_ensureNode (G : DiGraph) (i : String) : (ensureNode G i).edges = G.edges := by
  unfold ensureNode
  split <;> rfl

lemma edges_addNode (G : DiGraph) (i : String) (a : NodeAttrs) :
    (addNode G i a).edges = G.edges := by
  unfold addNode
  split <;> rfl

lemma find?_updateEdges (es : List ((String × String) × EdgeAttrs))
    (k : String × String) (a : EdgeAttrs) (k' : String × String) :
    (updateEdges es k a).find? (fun e => decide (e.1 = k')) =
      if k' = k then some (k, a) else es.find? (fun e => decide (e.1 = k')) := by
  induction es with
  | nil =>
    by_cases h : k' = k
    · simp [updateEdges, List.find?, h]
    · simp [updateEdges, List.find?, h, Ne.symm h]
  | cons e es ih =>
    simp only [updateEdges]
    by_cases he : e.1 = k
    · rw [if_pos he]
      by_cases h : k' = k
      · rw [List.find?_cons_of_pos _ (by simp only [decide_eq_true_eq]; exact h.symm), if_pos h]
      · rw [List.find?_cons_of_neg _
            (by simp only [decide_eq_true_eq]; exact fun hh => h hh.symm),
          if_neg h,
          List.find?_cons_of_neg _
            (by simp only [decide_eq_true_eq, he]; exact fun hh => h hh.symm)]
    · rw [if_neg he]
      by_cases hek : e.1 = k'
      · have hkk : ¬ k' = k := fun hh => he (hek.trans hh)
        rw [List.find?_cons_of_pos _ (by simp only [decide_eq_true_eq]; exact hek),
          if_neg hkk,
          List.find?_cons_of_pos _ (by simp only [decide_eq_true_eq]; exact hek)]
      · rw [List.find?_cons_of_neg _ (by simp only [decide_eq_true_eq]; exact hek), ih]
        by_cases h : k' = k
        · rw [if_pos h, if_pos h]
        · rw [if_neg h, if_neg h,
            List.find?_cons_of_neg _ (by simp only [decide_eq_true_eq]; exact hek)]

lemma mem_keys_updateEdges (es : List ((String × String) × EdgeAttrs))
    (k : String × String) (a : EdgeAttrs) (x : String × String) :
    x ∈ (updateEdges es k a).map Prod.fst ↔ (x ∈ es.map Prod.fst ∨ x = k) := by
  induction es with
  | nil => simp [updateEdges]
  | cons e es ih =>
    simp only [updateEdges]
    by_cases he : e.1 = k
    · rw [if_pos he]
      simp only [List.map_cons, List.mem_cons, he]
      tauto
    · rw [if_neg he]
      simp only [List.map_cons, List.mem_cons, ih]
      tauto

lemma keys_nodup_updateEdges (es : List ((String × String) × EdgeAttrs))
    (k : String × String) (a : EdgeAttrs) (h : (es.map Prod.fst).Nodup) :
    ((updateEdges es k a).map Prod.fst).Nodup := by
  induction es with
  | nil => simp [updateEdges]
  | cons e es ih =>
    simp only [updateEdges]
    by_cases he : e.1 = k
    · rw [if_pos he]
      rw [List.map_cons, List.nodup_cons] at h
      rw [List.map_cons, List.nodup_cons]
      exact ⟨by rw [← he]; exact h.1, h.2⟩
    · rw [if_neg he]
      rw [List.map_cons, List.nodup_cons] at h
      rw [List.map_cons, List.nodup_cons]
      refine ⟨?_, ih h.2⟩
      intro hmem
      rcases (mem_keys_updateEdges es k a e.1).mp hmem with hin | heq
      · exact h.1 hin
      · exact he heq

lemma edges_foldl_addNode (l : List Entity) (G : DiGraph) :
    (l.foldl (fun g e => addNode g e.id { label := e.name, group := e.type }) G).edges
      = G.edges := by
  induction l generalizing G with
  | nil => rfl
  | cons e l ih => rw [List.foldl_cons, ih, edges_addNode]

/-- Boolean test selecting the relationships that target a given ordered
node pair. -/
lemma edgeLookup_addEdge (G : DiGraph) (s o u v : String) (a : EdgeAttrs) :
    edgeLookup (addEdge G s o a) u v =
      if (u, v) = (s, o) then some a else edgeLookup G u v := by
  unfold addEdge edgeLookup edgeFind
  simp only [edges_ensureNode]
  rw [find?_updateEdges]
  split <;> rfl

lemma foldl_addEdge_lookup (rels : List Rel) (G : DiGraph) (u v : String) :
    edgeLookup (rels.foldl (fun g r => addEdge g r.subject_id r.object_id (relEdgeAttrs r)) G) u v =
      match rels.reverse.find? (relPred u v) with
      | some r => some (relEdgeAttrs r)
      | none => edgeLookup G u v := by
  induction rels generalizing G with
  | nil => rfl
  | cons r rs ih =>
    rw [List.foldl_cons, ih, List.reverse_cons, List.find?_append]
    cases hfind : rs.reverse.find? (relPred u v) with
    | some r' => simp [Option.or]
    | none =>
      rw [edgeLookup_addEdge]
      by_cases hp : (u, v) = (r.subject_id, r.object_id)
      · have hs : r.subject_id = u := (congrArg Prod.fst hp).symm
        have ho : r.object_id = v := (congrArg Prod.snd hp).symm
        have hpred : relPred u v r = true := by simp [relPred, hs, ho]
        rw [if_pos hp]
        simp [List.find?, hpred, Option.or]
      · have hpred : relPred u v r = false := by
          simp only [relPred, decide_eq_false_iff_not]
          rintro ⟨h1, h2⟩
          exact hp (by rw [h1, h2])
        rw [if_neg hp]
        simp [List.find?, hpred, Option.or]

lemma keys_nodup_foldl_addEdge (rels : List Rel) (G : DiGraph)
    (h : (edgeKeys G).Nodup) :
    (edgeKeys (rels.foldl (fun g r => addEdge g r.subject_id r.object_id (relEdgeAttrs r)) G)).Nodup := by
  induction rels generalizing G with
  | nil => exact h
  | cons r rs ih =>
    rw [List.foldl_cons]
    apply ih
    unfold edgeKeys addEdge
    simp only [edges_ensureNode]
    exact keys_nodup_updateEdges _ _ _ h

/-- C2: in every graph built by parse_graph_data the ordered edge keys are
pairwise distinct (at most one edge per ordered subject/object pair), and
the attributes stored for a pair are exactly those of the last relationship
entry with that pair (last write wins): the lookup equals the first match in
the reversed relationship list, mapped to its label and composed tooltip. -/
theorem parse_graph_data_last_write_wins (p : Payload) (u v : String) :
    (edgeKeys (parse_graph_data p)).Nodup ∧
    edgeLookup (parse_graph_data p) u v =
      (p.relationships.reverse.find? (relPred u v)).map relEdgeAttrs := by
  constructor
  · unfold parse_graph_data
    apply keys_nodup_foldl_addEdge
    unfold edgeKeys
    rw [edges_foldl_addNode]
    simp
  · unfold parse_graph_data
    rw [foldl_addEdge_lookup]
    have hbase : edgeLookup
        (p.entities.foldl (fun g e => addNode g e.id { label := e.name, group := e.type })
          { nodes := [], edges := [] }) u v = none := by
      unfold edgeLookup edgeFind
      rw [edges_foldl_addNode]
      rfl
    cases h : p.relationships.reverse.find? (relPred u v) <;> simp [hbase]

/-!
Canonical graph model of vertex_end_to_end.to_canonical_graph and the
tuple-set diff inside generate_plantuml_diff.  A canonical node carries
id, label and type; a canonical edge carries the six strings that
edge_key projects to a tuple.  The Python dicts old_edges and new_edges
keyed by edge_key are modelled by the first-insertion-ordered key list
dictKeys and the last-write-wins value lookup dictLookup.
-/

lemma mem_dictKeys_foldl (es : List CEdge) (acc : List EdgeKey) (k : EdgeKey) :
    k ∈ es.foldl (fun acc e => if edge_key e ∈ acc then acc else acc ++ [edge_key e]) acc ↔
      (k ∈ acc ∨ k ∈ es.map edge_key) := by
  induction es generalizing acc with
  | nil => simp
  | cons e es ih =>
    rw [List.foldl_cons, ih]
    by_cases he : edge_key e ∈ acc
    · rw [if_pos he]
      simp only [List.map_cons, List.mem_cons]
      constructor
      · rintro (h | h)
        · exact Or.inl h
        · exact Or.inr (Or.inr h)
      · rintro (h | h | h)
        · exact Or.inl h
        · exact Or.inl (h ▸ he)
        · exact Or.inr h
    · rw [if_neg he]
      simp only [List.mem_append, List.mem_singleton, List.map_cons, List.mem_cons]
      tauto

lemma mem_dictKeys (es : List CEdge) (k : EdgeKey) :
    k ∈ dictKeys es ↔ k ∈ es.map edge_key := by
  unfold dictKeys
  rw [mem_dictKeys_foldl]
  simp

/-- C3: the tuple-set diff keys every edge by the full six-field tuple;
keys in both graphs are common, keys only in the new graph added, keys only
in the old graph removed; the three classes are pairwise disjoint; and an
edge whose qualifiers changed in any field contributes one removed key (its
old tuple) and one added key (its new tuple), two distinct keys, neither of
which is classified common. -/
theorem tuple_set_diff_classification (og ng : CGraph) (k : EdgeKey) (eOld eNew : CEdge) :
    (k ∈ commonKeys og ng ↔ (k ∈ dictKeys og.edges ∧ k ∈ dictKeys ng.edges)) ∧
    (k ∈ addedKeys og ng ↔ (k ∈ dictKeys ng.edges ∧ k ∉ dictKeys og.edges)) ∧
    (k ∈ removedKeys og ng ↔ (k ∈ dictKeys og.edges ∧ k ∉ dictKeys ng.edges)) ∧
    ¬ (k ∈ commonKeys og ng ∧ k ∈ addedKeys og ng) ∧
    ¬ (k ∈ commonKeys og ng ∧ k ∈ removedKeys og ng) ∧
    ¬ (k ∈ addedKeys og ng ∧ k ∈ removedKeys og ng) ∧
    (eOld ∈ og.edges → eNew ∈ ng.edges →
      edge_key eOld ∉ ng.edges.map edge_key → edge_key eNew ∉ og.edges.map edge_key →
      edge_key eOld ∈ removedKeys og ng ∧ edge_key eNew ∈ addedKeys og ng ∧
        edge_key eOld ∉ commonKeys og ng ∧ edge_key eNew ∉ commonKeys og ng ∧
        edge_key eOld ≠ edge_key eNew) := by
  have hc : ∀ k₀ : EdgeKey,
      k₀ ∈ commonKeys og ng ↔ (k₀ ∈ dictKeys og.edges ∧ k₀ ∈ dictKeys ng.edges) := by
    intro k₀
    simp [commonKeys, List.mem_filter]
  have ha : ∀ k₀ : EdgeKey,
      k₀ ∈ addedKeys og ng ↔ (k₀ ∈ dictKeys ng.edges ∧ k₀ ∉ dictKeys og.edges) := by
    intro k₀
    simp [addedKeys, List.mem_filter]
  have hr : ∀ k₀ : EdgeKey,
      k₀ ∈ removedKeys og ng ↔ (k₀ ∈ dictKeys og.edges ∧ k₀ ∉ dictKeys ng.edges) := by
    intro k₀
    simp [removedKeys, List.mem_filter]
  refine ⟨hc k, ha k, hr k, ?_, ?_, ?_, ?_⟩
  · rintro ⟨h1, h2⟩
    exact (((ha k).mp h2).2 ((hc k).mp h1).1)
  · rintro ⟨h1, h2⟩
    exact (((hr k).mp h2).2 ((hc k).mp h1).2)
  · rintro ⟨h1, h2⟩
    exact (((ha k).mp h1).2 ((hr k).mp h2).1)
  · intro hmo hmn hno hno'
    have hko : edge_key eOld ∈ dictKeys og.edges :=
      (mem_dictKeys og.edges (edge_key eOld)).mpr (List.mem_map_of_mem edge_key hmo)
    have hkn : edge_key eNew ∈ dictKeys ng.edges :=
      (mem_dictKeys ng.edges (edge_key eNew)).mpr (List.mem_map_of_mem edge_key hmn)
    have hkon : edge_key eOld ∉ dictKeys ng.edges := fun h =>
      hno ((mem_dictKeys ng.edges (edge_key eOld)).mp h)
    have hkno : edge_key eNew ∉ dictKeys og.edges := fun h =>
      hno' ((mem_dictKeys og.edges (edge_key eNew)).mp h)
    refine ⟨(hr (edge_key eOld)).mpr ⟨hko, hkon⟩,
      (ha (edge_key eNew)).mpr ⟨hkn, hkno⟩, ?_, ?_, ?_⟩
    · intro h
      exact hkon ((hc (edge_key eOld)).mp h).2
    · intro h
      exact hkno ((hc (edge_key eNew)).mp h).1
    · intro h
      exact hkon (h ▸ hkn)

/-- Closed instance of the C3 theorem: a qualifier change on a concrete pair
of graphs yields one removed and one added key, with every hypothesis
discharged by computation. -/
theorem tuple_set_diff_classification_witness :
    edge_key (CEdge.mk "A" "B" "writes" "c1" "o1" "f1") ∈
      removedKeys (CGraph.mk [] [CEdge.mk "A" "B" "writes" "c1" "o1" "f1"])
        (CGraph.mk [] [CEdge.mk "A" "B" "writes" "c2" "o1" "f1"]) ∧
    edge_key (CEdge.mk "A" "B" "writes" "c2" "o1" "f1") ∈
      addedKeys (CGraph.mk [] [CEdge.mk "A" "B" "writes" "c1" "o1" "f1"])
        (CGraph.mk [] [CEdge.mk "A" "B" "writes" "c2" "o1" "f1"]) ∧
    edge_key (CEdge.mk "A" "B" "writes" "c1" "o1" "f1") ∉
      commonKeys (CGraph.mk [] [CEdge.mk "A" "B" "writes" "c1" "o1" "f1"])
        (CGraph.mk [] [CEdge.mk "A" "B" "writes" "c2" "o1" "f1"]) ∧
    edge_key (CEdge.mk "A" "B" "writes" "c2" "o1" "f1") ∉
      commonKeys (CGraph.mk [] [CEdge.mk "A" "B" "writes" "c1" "o1" "f1"])
        (CGraph.mk [] [CEdge.mk "A" "B" "writes" "c2" "o1" "f1"]) ∧
    edge_key (CEdge.mk "A" "B" "writes" "c1" "o1" "f1") ≠
      edge_key (CEdge.mk "A" "B" "writes" "c2" "o1" "f1") :=
  (tuple_set_diff_classification
      (CGraph.mk [] [CEdge.mk "A" "B" "writes" "c1" "o1" "f1"])
      (CGraph.mk [] [CEdge.mk "A" "B" "writes" "c2" "o1" "f1"])
      (edge_key (CEdge.mk "A" "B" "writes" "c1" "o1" "f1"))
      (CEdge.mk "A" "B" "writes" "c1" "o1" "f1")
      (CEdge.mk "A" "B" "writes" "c2" "o1" "f1")).2.2.2.2.2.2
    (by decide) (by decide) (by decide) (by decide)

/-!
PlantUML renderer model.  node_line and edge_line mirror the node and edge
statement construction shared by generate_plantuml and generate_plantuml_diff
(the edge construction is the body of the private edge line helper; the
single-graph renderer duplicates it with no color, no dash and no label
prefix).  The diff renderer takes the enumeration of each key set as an
argument: the Python key sets are built with set operations over dict views
whose iteration order is unspecified across interpreter processes.
-/

lemma enumerates_perm {l₁ l₂ s : List EdgeKey}
    (h₁ : enumerates l₁ s) (h₂ : enumerates l₂ s) : l₁.Perm l₂ :=
  (List.perm_ext_iff_of_nodup h₁.1 h₂.1).mpr
    (fun a => ⟨fun h => h₂.2.2 a (h₁.2.1 a h), fun h => h₁.2.2 a (h₂.2.1 a h)⟩)

lemma joinSpace_head (p : List Char) (rest : List (List Char)) :
    ∃ t, joinSpace (p :: rest) = p ++ t := by
  show ∃ t, rest.foldl (fun acc x => acc ++ ' ' :: x) p = p ++ t
  induction rest generalizing p with
  | nil => exact ⟨[], (List.append_nil p).symm⟩
  | cons x xs ih =>
    rw [List.foldl_cons]
    obtain ⟨t, ht⟩ := ih (p ++ ' ' :: x)
    exact ⟨' ' :: x ++ t, by rw [ht, List.append_assoc]⟩

lemma pyStripL_removed_head (t0 : List Char) :
    ∃ t, pyStripL ("REMOVED: ".data ++ t0) = "REMOVED:".data ++ t := by
  unfold pyStripL lstripL rstripL
  rw [List.reverse_append, List.dropWhile_append]
  by_cases hemp : (List.dropWhile isPyWs t0.reverse).isEmpty = true
  · rw [if_pos hemp]
    exact ⟨[], by decide⟩
  · rw [if_neg hemp]
    refine ⟨' ' :: (List.dropWhile isPyWs t0.reverse).reverse, ?_⟩
    rw [List.reverse_append, List.reverse_reverse, List.dropWhile_append]
    have h3 : List.dropWhile isPyWs "REMOVED: ".data = "REMOVED: ".data := by decide
    rw [if_neg (by rw [h3]; decide), h3]
    have h4 : "REMOVED: ".data = "REMOVED:".data ++ [' '] := by decide
    rw [h4, List.append_assoc]
    rfl

lemma labelText_removed_startsWith (e : CEdge) :
    ∃ t : List Char, (labelText "REMOVED: " e).data = "REMOVED:".data ++ t := by
  have hfil : (labelPartsL "REMOVED: " e).filter (fun p => !p.isEmpty) =
      "REMOVED: ".data ::
        ((e.relation.data ::
          ((if e.condition = "" then [] else [('(' :: e.condition.data) ++ [')']]) ++
           (if e.optionality = "" then [] else [('[' :: e.optionality.data) ++ [']']]) ++
           (if e.frequency = "" then [] else [('\x7b' :: e.frequency.data) ++ ['\x7d']]))).filter
          (fun p => !p.isEmpty)) := by
    unfold labelPartsL
    rw [List.filter_cons]
    simp only [show (!("REMOVED: ".data.isEmpty)) = true from by decide, if_pos]
  obtain ⟨t0, h0⟩ := joinSpace_head ("REMOVED: ".data)
    ((e.relation.data ::
      ((if e.condition = "" then [] else [('(' :: e.condition.data) ++ [')']]) ++
       (if e.optionality = "" then [] else [('[' :: e.optionality.data) ++ [']']]) ++
       (if e.frequency = "" then [] else [('\x7b' :: e.frequency.data) ++ ['\x7d']]))).filter
      (fun p => !p.isEmpty))
  obtain ⟨t, ht⟩ := pyStripL_removed_head t0
  refine ⟨t, ?_⟩
  show pyStripL (joinSpace ((labelPartsL "REMOVED: " e).filter (fun p => !p.isEmpty))) =
    "REMOVED:".data ++ t
  rw [hfil, h0, ht]

/-- C7: every key classified as removed is rendered from the record stored
in the OLD dict for that key (the last old edge with that full tuple): the
emitted statement is the edge line built from that old record with the
REMOVED prefix, the dashed arrow and the removal color, its label begins
with the REMOVED marker, and the removal arrow text differs from both the
added-edge arrow and the plain common-edge arrow. -/
theorem removed_edges_rendered_from_old (og ng : CGraph) (title scale : Option String)
    (ck ak rk : List EdgeKey) (k : EdgeKey)
    (hrk : enumerates rk (removedKeys og ng)) (hk : k ∈ removedKeys og ng) :
    ∃ e, e ∈ og.edges ∧ dictLookup og.edges k = some e ∧ edge_key e = k ∧
      edge_line e (some "#BB0000") true "REMOVED: " ∈ diffLines og ng title scale ck ak rk ∧
      (∃ t : List Char, (labelText "REMOVED: " e).data = "REMOVED:".data ++ t) ∧
      arrowFor (some "#BB0000") true = "-[#BB0000].>" ∧
      arrowFor (some "#BB0000") true ≠ arrowFor (some "#008800") false ∧
      arrowFor (some "#BB0000") true ≠ arrowFor none false := by
  obtain ⟨h1, -⟩ := List.mem_filter.mp hk
  have hmap : k ∈ og.edges.map edge_key := (mem_dictKeys _ _).mp h1
  obtain ⟨e0, he0, hke⟩ := List.mem_map.mp hmap
  have hsome : (og.edges.reverse.find? (fun e => decide (edge_key e = k))).isSome = true :=
    List.find?_isSome.mpr ⟨e0, List.mem_reverse.mpr he0, by simp [hke]⟩
  cases hfind : og.edges.reverse.find? (fun e => decide (edge_key e = k)) with
  | none => rw [hfind] at hsome; cases hsome
  | some e =>
    have hmem : e ∈ og.edges := List.mem_reverse.mp (List.mem_of_find?_eq_some hfind)
    have hkey : edge_key e = k := by simpa using List.find?_some hfind
    have hlook : dictLookup og.edges k = some e := hfind
    have hget : dGet og.edges k = e := by
      unfold dGet
      rw [hlook]
      rfl
    have hkrk : k ∈ rk := hrk.2.2 k hk
    have hline : edge_line e (some "#BB0000") true "REMOVED: " ∈
        rk.map (fun k0 => edge_line (dGet og.edges k0) (some "#BB0000") true "REMOVED: ") :=
      List.mem_map.mpr ⟨k, hkrk, by rw [hget]⟩
    refine ⟨e, hmem, hlook, hkey, ?_, labelText_removed_startsWith e,
      by decide, by decide, by decide⟩
    simp only [diffLines, List.mem_append]
    tauto

/-- Concrete graphs used by the rendering witnesses and the order
counterexample: the old graph has two edges, the new graph none, so both
edge keys are classified as removed. -/
theorem removed_edges_rendered_from_old_witness :
    enumerates [k1R, k2R] (removedKeys ogR ngR) ∧
    k1R ∈ removedKeys ogR ngR ∧
    ∃ e, e ∈ ogR.edges ∧ dictLookup ogR.edges k1R = some e ∧ edge_key e = k1R ∧
      edge_line e (some "#BB0000") true "REMOVED: " ∈
        diffLines ogR ngR none none [] [] [k1R, k2R] ∧
      (∃ t : List Char, (labelText "REMOVED: " e).data = "REMOVED:".data ++ t) ∧
      arrowFor (some "#BB0000") true = "-[#BB0000].>" ∧
      arrowFor (some "#BB0000") true ≠ arrowFor (some "#008800") false ∧
      arrowFor (some "#BB0000") true ≠ arrowFor none false :=
  ⟨by decide, by decide,
    removed_edges_rendered_from_old ogR ngR none none [] [] [k1R, k2R] k1R
      (by decide) (by decide)⟩

/-- C8 counterexample: the diff output is a function of the key-set
iteration order as well as of the two graphs.  Both removed-key lists below
enumerate the same removed-key set, as Python set iteration may, yet the
rendered documents differ character-wise, so two invocations on identical
graphs need not produce identical text. -/
theorem generate_plantuml_diff_order_dependent :
    enumerates [] (commonKeys ogR ngR) ∧
    enumerates [] (addedKeys ogR ngR) ∧
    enumerates [k1R, k2R] (removedKeys ogR ngR) ∧
    enumerates [k2R, k1R] (removedKeys ogR ngR) ∧
    generate_plantuml_diff ogR ngR none none [] [] [k1R, k2R] ≠
      generate_plantuml_diff ogR ngR none none [] [] [k2R, k1R] :=
  ⟨by decide, by decide, by decide, by decide, by decide⟩

/-- C8 as amended: for fixed graphs, title and scale, any two enumerations
of the common, added and removed key sets yield diff documents whose line
lists are permutations of each other (the per-class edge statements are
reordered, nothing else changes), and coinciding enumerations yield
character-identical text. -/
theorem generate_plantuml_diff_order_perm (og ng : CGraph) (title scale : Option String)
    (ck₁ ak₁ rk₁ ck₂ ak₂ rk₂ : List EdgeKey)
    (hc₁ : enumerates ck₁ (commonKeys og ng)) (ha₁ : enumerates ak₁ (addedKeys og ng))
    (hr₁ : enumerates rk₁ (removedKeys og ng))
    (hc₂ : enumerates ck₂ (commonKeys og ng)) (ha₂ : enumerates ak₂ (addedKeys og ng))
    (hr₂ : enumerates rk₂ (removedKeys og ng)) :
    (diffLines og ng title scale ck₁ ak₁ rk₁).Perm (diffLines og ng title scale ck₂ ak₂ rk₂) ∧
    (ck₁ = ck₂ → ak₁ = ak₂ → rk₁ = rk₂ →
      generate_plantuml_diff og ng title scale ck₁ ak₁ rk₁ =
        generate_plantuml_diff og ng title scale ck₂ ak₂ rk₂) := by
  constructor
  · have pc : (ck₁.map (fun k => edge_line (dGet ng.edges k) none false "")).Perm
        (ck₂.map (fun k => edge_line (dGet ng.edges k) none false "")) :=
      (enumerates_perm hc₁ hc₂).map _
    have pa : (ak₁.map (fun k => edge_line (dGet ng.edges k) (some "#008800") false "")).Perm
        (ak₂.map (fun k => edge_line (dGet ng.edges k) (some "#008800") false "")) :=
      (enumerates_perm ha₁ ha₂).map _
    have pr : (rk₁.map (fun k => edge_line (dGet og.edges k) (some "#BB0000") true "REMOVED: ")).Perm
        (rk₂.map (fun k => edge_line (dGet og.edges k) (some "#BB0000") true "REMOVED: ")) :=
      (enumerates_perm hr₁ hr₂).map _
    unfold diffLines
    exact ((((List.Perm.refl _).append pc).append pa).append pr).append (List.Perm.refl _)
  · intro h1 h2 h3
    rw [h1, h2, h3]

/-- Closed instance of the amended C8 theorem on the concrete graphs, all
six enumeration hypotheses discharged by computation. -/
theorem generate_plantuml_diff_order_perm_witness :
    (diffLines ogR ngR none none [] [] [k1R, k2R]).Perm
      (diffLines ogR ngR none none [] [] [k2R, k1R]) ∧
    ([] = ([] : List EdgeKey) → [] = ([] : List EdgeKey) → [k1R, k2R] = [k2R, k1R] →
      generate_plantuml_diff ogR ngR none none [] [] [k1R, k2R] =
        generate_plantuml_diff ogR ngR none none [] [] [k2R, k1R]) :=
  generate_plantuml_diff_order_perm ogR ngR none none [] [] [k1R, k2R] [] [] [k2R, k1R]
    (by decide) (by decide) (by decide) (by decide) (by decide) (by decide)

/-! Support lemmas for the node dict of generate_plantuml_diff. -/

lemma findId_setdefault (acc : List CNode) (n : CNode) (i : String) :
    (setdefaultNode acc n).find? (fun m => decide (m.id = i)) =
      ((acc.find? (fun m => decide (m.id = i))).or
        (if n.id = i then some n else none)) := by
  unfold setdefaultNode
  by_cases h : (acc.find? (fun m => decide (m.id = n.id))).isSome = true
  · rw [if_pos h]
    cases hf : acc.find? (fun m => decide (m.id = i)) with
    | some m => rfl
    | none =>
      by_cases hni : n.id = i
      · exfalso
        obtain ⟨m, hm, hpm⟩ := List.find?_isSome.mp h
        have hmi : m.id = i := by
          have : m.id = n.id := by simpa using hpm
          rw [this, hni]
        exact (List.find?_eq_none.mp hf m hm) (by simp [hmi])
      · rw [if_neg hni]
        rfl
  · rw [if_neg h, List.find?_append]
    have hsing : [n].find? (fun m => decide (m.id = i)) =
        (if n.id = i then some n else none) := by
      by_cases hni : n.id = i
      · rw [if_pos hni, List.find?_cons_of_pos _ (by simp [hni])]
      · rw [if_neg hni, List.find?_cons_of_neg _ (by simp [hni])]
        rfl
    rw [hsing]

lemma findId_foldl (l : List CNode) (acc : List CNode) (i : String) :
    ((l.foldl setdefaultNode acc).find? (fun m => decide (m.id = i))) =
      ((acc.find? (fun m => decide (m.id = i))).or
        (l.find? (fun m => decide (m.id = i)))) := by
  induction l generalizing acc with
  | nil =>
    rw [List.foldl_nil]
    cases h : acc.find? (fun m => decide (m.id = i)) <;> simp [Option.or, List.find?]
  | cons n l ih =>
    rw [List.foldl_cons, ih, findId_setdefault]
    by_cases hni : n.id = i
    · rw [List.find?_cons_of_pos _ (by simp [hni]), if_pos hni]
      cases hf : acc.find? (fun m => decide (m.id = i)) <;> simp [Option.or]
    · rw [List.find?_cons_of_neg _ (by simp [hni]), if_neg hni]
      cases hf : acc.find? (fun m => decide (m.id = i)) <;> simp [Option.or]

/-- C10: when a node id occurs in both graphs, the node dict of the diff
renderer keeps the OLD record for that id (setdefault never overwrites), so
the emitted node declaration is built from the old label and old
shape-selecting type, whatever record the new graph carries for the id and
however the incident edges are classified (the key enumerations are
arbitrary and do not occur in the conclusion). -/
theorem diff_uses_old_node_record (og ng : CGraph) (title scale : Option String)
    (ck ak rk : List EdgeKey) (i : String) (n n2 : CNode)
    (hold : og.nodes.find? (fun m => decide (m.id = i)) = some n)
    (_hnew : ng.nodes.find? (fun m => decide (m.id = i)) = some n2) :
    (nodesById og ng).find? (fun m => decide (m.id = i)) = some n ∧
    n ∈ nodesById og ng ∧
    node_line n ∈ diffLines og ng title scale ck ak rk := by
  have h1 : (nodesById og ng).find? (fun m => decide (m.id = i)) = some n := by
    unfold nodesById
    rw [findId_foldl, List.find?_append, hold]
    rfl
  refine ⟨h1, List.mem_of_find?_eq_some h1, ?_⟩
  have hmem : node_line n ∈ (nodesById og ng).map node_line :=
    List.mem_map_of_mem node_line (List.mem_of_find?_eq_some h1)
  simp only [diffLines, List.mem_append]
  tauto

theorem diff_uses_old_node_record_witness :
    (nodesById ogN ngN).find? (fun m => decide (m.id = "E1")) =
      some { id := "E1", label := "Old label", type := "actor" } ∧
    ({ id := "E1", label := "Old label", type := "actor" } : CNode) ∈ nodesById ogN ngN ∧
    node_line { id := "E1", label := "Old label", type := "actor" } ∈
      diffLines ogN ngN none none [] [] [] :=
  diff_uses_old_node_record ogN ngN none none [] [] [] "E1"
    { id := "E1", label := "Old label", type := "actor" }
    { id := "E1", label := "New label", type := "system" }
    (by decide) (by decide)

/-!
JSON model for the json.loads calls of the structured extractor.  Values
mirror what the Python parser produces: numbers are kept as their lexemes
(none of the verified claims depends on numeric semantics), strings are
decoded including the standard escapes (a unicode escape becomes the single
code point, surrogate pairing is not modelled), objects are
insertion-ordered key/value lists where a duplicate key overwrites the
value at the first occurrence, as dict construction does.  The parser is a
recursive-descent reading of the JSON grammar accepted by json.loads in its
default strict mode, including the NaN and Infinity literals.
-/

lemma fenceMatchAt_of_not_fence (cs : List Char) (b : Bool)
    (h : ¬ cs.take 3 = [backtick, backtick, backtick]) : fenceMatchAt cs b = none := by
  unfold fenceMatchAt
  rw [if_neg h]

lemma hasFence_false_parts (c : Char) (rest : List Char)
    (h : hasFence (c :: rest) = false) :
    (¬ (c :: rest).take 3 = [backtick, backtick, backtick]) ∧ hasFence rest = false := by
  unfold hasFence at h
  rcases Bool.or_eq_false_iff.mp h with ⟨h1, h2⟩
  exact ⟨of_decide_eq_false h1, h2⟩

lemma fenceSearchGreedy_of_no_fence (cs : List Char) (h : hasFence cs = false) :
    fenceSearchGreedy cs = none := by
  induction cs with
  | nil => rfl
  | cons c rest ih =>
    obtain ⟨h1, h2⟩ := hasFence_false_parts c rest h
    unfold fenceSearchGreedy
    rw [fenceMatchAt_of_not_fence _ _ h1]
    exact ih h2

lemma fenceFindall_of_no_fence (f : Nat) (cs : List Char) (h : hasFence cs = false) :
    fenceFindall f cs = [] := by
  induction f generalizing cs with
  | zero => rfl
  | succ f ih =>
    cases cs with
    | nil => rfl
    | cons c rest =>
      obtain ⟨h1, h2⟩ := hasFence_false_parts c rest h
      unfold fenceFindall
      rw [fenceMatchAt_of_not_fence _ _ h1]
      exact ih rest h2

lemma braceSpansAux_step (cs : List Char) (n f : Nat)
    (hhead : cs.head? = some '\x7b') (hscan : scanDepth 0 cs = some n) :
    braceSpansAux (f + 1) cs = cs.take n :: braceSpansAux f (cs.drop n) := by
  cases cs with
  | nil => simp at hhead
  | cons c t =>
    have hc : c = '\x7b' := by simpa using hhead
    subst hc
    have hdrop : ('\x7b' :: t).dropWhile (fun c => !(decide (c = '\x7b'))) = '\x7b' :: t := by
      rw [List.dropWhile_cons]
      simp
    have hstep : braceSpansAux (f + 1) ('\x7b' :: t) =
        (match scanDepth 0 ('\x7b' :: t) with
         | some n => ('\x7b' :: t).take n :: braceSpansAux f (('\x7b' :: t).drop n)
         | none => []) := by
      rw [show braceSpansAux (f + 1) ('\x7b' :: t) =
          (match ('\x7b' :: t).dropWhile (fun c => !(decide (c = '\x7b'))) with
           | [] => []
           | s =>
             match scanDepth 0 s with
             | some n => s.take n :: braceSpansAux f (s.drop n)
             | none => []) from rfl]
      rw [hdrop]
    rw [hstep, hscan]

/-- C4 as amended: if the input is a JSON object followed by trailing
prose, where the whole text carries no surrounding whitespace and fails the
direct parse, contains no code-fence marker, and the depth-counting scan
from the leading brace closes exactly at the end of the object (in
particular no closing brace hides inside one of its string literals), then
the extractor returns that object. -/
theorem extract_obj_then_prose (obj prose : String) (j : Json)
    (h0 : pyStripL (obj.data ++ prose.data) = obj.data ++ prose.data)
    (h1 : jsonLoadsL (obj.data ++ prose.data) = none)
    (h2 : hasFence (obj.data ++ prose.data) = false)
    (h3 : obj.data.head? = some '\x7b')
    (h4 : scanDepth 0 (obj.data ++ prose.data) = some obj.data.length)
    (h5 : jsonLoadsL obj.data = some j) :
    extract_json_blob (obj ++ prose) = Except.ok j := by
  have hdata : (obj ++ prose).data = obj.data ++ prose.data := String.data_append obj prose
  have hfs : fenceSearchGreedy (obj.data ++ prose.data) = none :=
    fenceSearchGreedy_of_no_fence _ h2
  have hhead : (obj.data ++ prose.data).head? = some '\x7b' := by
    cases hobj : obj.data with
    | nil => rw [hobj] at h3; simp at h3
    | cons c t =>
      rw [hobj] at h3
      simpa using h3
  have hstep := braceSpansAux_step (obj.data ++ prose.data) obj.data.length
    ((obj.data ++ prose.data).length) hhead h4
  have hcand : candidatesOf (obj.data ++ prose.data) =
      obj.data :: braceSpansAux ((obj.data ++ prose.data).length)
        ((obj.data ++ prose.data).drop obj.data.length) := by
    unfold candidatesOf braceSpans
    rw [fenceFindall_of_no_fence _ _ h2, List.nil_append, hstep, List.take_left]
  have hscanph : scanPhase (obj.data ++ prose.data) = Except.ok j := by
    unfold scanPhase
    rw [hcand]
    unfold firstParse
    rw [h5]
  show extract_json_blob (obj ++ prose) = Except.ok j
  unfold extract_json_blob
  rw [hdata, h0, h1, hfs]
  exact hscanph

/-- Closed instance of the amended C4 theorem, every hypothesis discharged
by evaluation: the object at the head of the text is recovered, the
trailing prose ignored. -/
theorem extract_obj_then_prose_witness :
    extract_json_blob ("\x7b\"a\": 1\x7d" ++ " and some trailing prose") =
      Except.ok (Json.obj [("a", Json.num "1")]) :=
  extract_obj_then_prose "\x7b\"a\": 1\x7d" " and some trailing prose"
    (Json.obj [("a", Json.num "1")]) rfl rfl rfl rfl rfl rfl

/-- C4 counterexample: the claim fails as stated.  First input: a valid
JSON object whose string value contains a closing brace, followed by
trailing prose; the depth counter closes the span inside the string, no
candidate parses, and the extractor raises instead of returning the
object.  Second input: a valid JSON object followed by prose that contains
a fenced JSON block; the fence branch returns the fenced object, not the
leading one. -/
theorem extract_json_prefix_cex :
    jsonLoadsL ("\x7b\"a\": \"\x7d\"\x7d").data = some (Json.obj [("a", Json.str "\x7d")]) ∧
    extract_json_blob ("\x7b\"a\": \"\x7d\"\x7d" ++ " tail") =
      Except.error "No valid JSON object found in LLM response" ∧
    jsonLoadsL ("\x7b\"a\": 1\x7d").data = some (Json.obj [("a", Json.num "1")]) ∧
    extract_json_blob
        ("\x7b\"a\": 1\x7d" ++ " \x60\x60\x60json \x7b\"b\": 2\x7d \x60\x60\x60") =
      Except.ok (Json.obj [("b", Json.num "2")]) ∧
    Json.obj [("b", Json.num "2")] ≠ Json.obj [("a", Json.num "1")] := by
  refine ⟨rfl, rfl, rfl, rfl, ?_⟩
  intro h
  have h1 : [("b", Json.num "2")] = [("a", Json.num "1")] := by injection h
  have h2 : ("b", Json.num "2") = ("a", Json.num "1") := by injection h1
  have h3 : "b" = "a" := congrArg Prod.fst h2
  exact absurd h3 (by decide)

lemma firstParse_none_iff (l : List (List Char)) :
    firstParse l = none ↔ ∀ c ∈ l, jsonLoadsL c = none := by
  induction l with
  | nil => simp [firstParse]
  | cons c rest ih =>
    unfold firstParse
    cases h : jsonLoadsL c with
    | some v =>
      constructor
      · intro hh
        cases hh
      · intro hall
        have := hall c (List.mem_cons_self c rest)
        rw [h] at this
        cases this
    | none =>
      constructor
      · intro hh c2 hc2
        rcases List.mem_cons.mp hc2 with heq | hmem
        · rw [heq]
          exact h
        · exact ih.mp hh c2 hmem
      · intro hall
        exact ih.mpr (fun c2 hc2 => hall c2 (List.mem_cons_of_mem c hc2))

lemma firstParse_some (l : List (List Char)) (v : Json) (h : firstParse l = some v) :
    ∃ c ∈ l, jsonLoadsL c = some v := by
  induction l with
  | nil => cases h
  | cons c rest ih =>
    unfold firstParse at h
    cases hc : jsonLoadsL c with
    | some w =>
      rw [hc] at h
      injection h with h2
      exact ⟨c, List.mem_cons_self c rest, by rw [hc, h2]⟩
    | none =>
      rw [hc] at h
      obtain ⟨c2, hm, hp⟩ := ih h
      exact ⟨c2, List.mem_cons_of_mem c hm, hp⟩

/-- C5: the extractor raises the no-structured-data error exactly when no
candidate parses, where the candidates are the stripped text, the greedy
fenced group when one matches, and the scanning-phase candidates (non
greedy fenced groups and balanced-brace spans) over the working text; on
failure nothing but the error is produced, and on success the returned
value is the parse of one of those candidates. -/
theorem extract_failure_iff (raw : String) :
    (extract_json_blob raw = Except.error "No valid JSON object found in LLM response" ↔
      ∀ c ∈ allCandidates raw, jsonLoadsL c = none) ∧
    (∀ v, extract_json_blob raw = Except.ok v →
      ∃ c ∈ allCandidates raw, jsonLoadsL c = some v) := by
  cases hdir : jsonLoadsL (pyStripL raw.data) with
  | some v =>
    have hred : extract_json_blob raw = Except.ok v := by
      unfold extract_json_blob
      rw [hdir]
    have hhd : pyStripL raw.data ∈ allCandidates raw := by
      unfold allCandidates
      cases hfs : fenceSearchGreedy (pyStripL raw.data) with
      | some g => exact List.mem_cons_self _ _
      | none => exact List.mem_cons_self _ _
    rw [hred]
    refine ⟨⟨fun h => Except.noConfusion h, fun hall => ?_⟩, fun v2 hv2 => ?_⟩
    · exfalso
      have h1 := hall (pyStripL raw.data) hhd
      rw [hdir] at h1
      cases h1
    · injection hv2 with h
      exact ⟨pyStripL raw.data, hhd, by rw [hdir, h]⟩
  | none =>
    cases hfs : fenceSearchGreedy (pyStripL raw.data) with
    | some g =>
      have hcand : allCandidates raw = pyStripL raw.data :: g :: candidatesOf g := by
        unfold allCandidates
        rw [hfs]
      cases hg : jsonLoadsL g with
      | some v =>
        have hred : extract_json_blob raw = Except.ok v := by
          unfold extract_json_blob
          rw [hdir, hfs]
          show (match jsonLoadsL g with
                | some v => Except.ok v
                | none => scanPhase g) = Except.ok v
          rw [hg]
        rw [hred, hcand]
        refine ⟨⟨fun h => Except.noConfusion h, fun hall => ?_⟩, fun v2 hv2 => ?_⟩
        · exfalso
          have h1 := hall g (List.mem_cons_of_mem _ (List.mem_cons_self _ _))
          rw [hg] at h1
          cases h1
        · injection hv2 with h
          exact ⟨g, List.mem_cons_of_mem _ (List.mem_cons_self _ _), by rw [hg, h]⟩
      | none =>
        have hred : extract_json_blob raw = scanPhase g := by
          unfold extract_json_blob
          rw [hdir, hfs]
          show (match jsonLoadsL g with
                | some v => Except.ok v
                | none => scanPhase g) = scanPhase g
          rw [hg]
        rw [hred, hcand]
        unfold scanPhase
        cases hfp : firstParse (candidatesOf g) with
        | some v =>
          refine ⟨⟨fun h => Except.noConfusion h, fun hall => ?_⟩, fun v2 hv2 => ?_⟩
          · exfalso
            obtain ⟨c, hm, hp⟩ := firstParse_some _ _ hfp
            have h1 := hall c (List.mem_cons_of_mem _ (List.mem_cons_of_mem _ hm))
            rw [hp] at h1
            cases h1
          · injection hv2 with h
            obtain ⟨c, hm, hp⟩ := firstParse_some _ _ hfp
            exact ⟨c, List.mem_cons_of_mem _ (List.mem_cons_of_mem _ hm), by rw [hp, h]⟩
        | none =>
          refine ⟨⟨fun _ c hc => ?_, fun _ => rfl⟩, fun v2 hv2 => Except.noConfusion hv2⟩
          rcases List.mem_cons.mp hc with heq | hc2
          · rw [heq]
            exact hdir
          rcases List.mem_cons.mp hc2 with heq | hc3
          · rw [heq]
            exact hg
          · exact (firstParse_none_iff _).mp hfp c hc3
    | none =>
      have hcand : allCandidates raw =
          pyStripL raw.data :: candidatesOf (pyStripL raw.data) := by
        unfold allCandidates
        rw [hfs]
      have hred : extract_json_blob raw = scanPhase (pyStripL raw.data) := by
        unfold extract_json_blob
        rw [hdir, hfs]
      rw [hred, hcand]
      unfold scanPhase
      cases hfp : firstParse (candidatesOf (pyStripL raw.data)) with
      | some v =>
        refine ⟨⟨fun h => Except.noConfusion h, fun hall => ?_⟩, fun v2 hv2 => ?_⟩
        · exfalso
          obtain ⟨c, hm, hp⟩ := firstParse_some _ _ hfp
          have h1 := hall c (List.mem_cons_of_mem _ hm)
          rw [hp] at h1
          cases h1
        · injection hv2 with h
          obtain ⟨c, hm, hp⟩ := firstParse_some _ _ hfp
          exact ⟨c, List.mem_cons_of_mem _ hm, by rw [hp, h]⟩
      | none =>
        refine ⟨⟨fun _ c hc => ?_, fun _ => rfl⟩, fun v2 hv2 => Except.noConfusion hv2⟩
        rcases List.mem_cons.mp hc with heq | hc2
        · rw [heq]
          exact hdir
        · exact (firstParse_none_iff _).mp hfp c hc2

/-- Closed instance of the C5 theorem on an input with no parsing
candidate: the failure direction of the equivalence applied at a concrete
text. -/
theorem extract_failure_iff_witness :
    extract_json_blob "no json here" =
      Except.error "No valid JSON object found in LLM response" :=
  ((extract_failure_iff "no json here").1).mpr (by
    intro c hc
    have hl : allCandidates "no json here" = ["no json here".data] := rfl
    rw [hl] at hc
    have he := List.mem_singleton.mp hc
    rw [he]
    rfl)

/-- C6: the code contradicts its own Dict annotation and docstring: a raw
text consisting of a bare JSON array is returned as that array by the
direct-parse branch; the result is not an object mapping. -/
theorem extract_returns_bare_array :
    extract_json_blob "[1, 2]" = Except.ok (Json.arr [Json.num "1", Json.num "2"]) ∧
    Json.isObj (Json.arr [Json.num "1", Json.num "2"]) = false :=
  ⟨rfl, rfl⟩

end Aura
